import Mathlib

/-!
Verification of the seeded Catan board-layout generator
(`src/board-generator.ts` and its near-identical variants).

Shallow embedding conventions:
* JavaScript numbers that hold integer values (seeds, hashes, rows,
  columns, dice values, pip totals) are embedded as `Int`;
  array indices as `Nat`.
* `seededRandom` is `Math.sin`-based floating point in the source; every
  theorem is parametric in an arbitrary generator `rng : Int → ℚ`, with the
  PRNG contract `0 ≤ rng s < 1` (spec section 4.1) as a hypothesis where the
  claim's domain needs it.  All fractional arithmetic of the scorer is
  embedded in `ℚ`.
* JavaScript array cells that may be `undefined` (the `new Array(30)`
  resource slots, out-of-range number lookups) are embedded as `Option`.
* Seed texts are embedded as their lists of UTF-16 code units (`List Nat`),
  matching `str.charCodeAt(i)`.
-/

namespace Catan

/-- The six tile kinds of `type ResourceType` (five production kinds plus desert). -/
inductive Resource where
  | wood
  | wheat
  | sheep
  | ore
  | brick
  | desert
deriving DecidableEq, Repr

/-- `interface NumberToken` from the source. -/
structure NumberToken where
  val : Int
  letter : String
  pips : String
  red : Bool
  pipValue : Int
deriving DecidableEq, Repr

/-- `interface LandPosition`: an offset hex-grid coordinate plus the edge flag. -/
structure LandPosition where
  pos : Int × Int
  edge : Bool
deriving DecidableEq, Repr, Inhabited

/-- `interface ResourcePipTotals`. -/
structure ResourcePipTotals where
  wood : Int
  wheat : Int
  sheep : Int
  ore : Int
  brick : Int
deriving DecidableEq, Repr

/-- `interface CIBIResult`. -/
structure CIBIResult where
  score : Int
  pipTotals : ResourcePipTotals
deriving DecidableEq, Repr

/-- The swap index of one Fisher-Yates step:
`Math.floor(seededRandom(seed + i) * (i + 1))`, with `seededRandom`
abstracted as `rng`.  Under the PRNG contract `0 ≤ rng s < 1` the floor is
in `[0, i]`, so `Int.toNat` is exact. -/
def jIndex (rng : Int → ℚ) (seed : Int) (i : Nat) : Nat :=
  (Int.floor (rng (seed + i) * ((i : ℚ) + 1))).toNat

/-- The in-place swap `[arr[i], arr[j]] = [arr[j], arr[i]]`; a no-op when an
index is out of range (under the PRNG contract both indices are always in
range in `shuffleArray`). -/
def listSwap (l : List α) (i j : Nat) : List α :=
  match l.get? i, l.get? j with
  | some a, some b => (l.set i b).set j a
  | _, _ => l

/-- The loop of `shuffleArray`: `for (let i = arr.length - 1; i > 0; i--)`,
swapping index `i` with `jIndex rng seed i` on the way down. -/
def fyAux (rng : Int → ℚ) (seed : Int) : List α → Nat → List α
  | arr, 0 => arr
  | arr, k + 1 => fyAux rng seed (listSwap arr (k + 1) (jIndex rng seed (k + 1))) k

/-- `function shuffleArray<T>(array: T[], seed: number): T[]` — seeded
Fisher-Yates on a copy of the input. -/
def shuffleArray (rng : Int → ℚ) (array : List α) (seed : Int) : List α :=
  fyAux rng seed array (array.length - 1)

/-- `function areAdjacent(posObj1, posObj2)` on the underlying coordinate
pairs (the source first projects `.pos` from position objects; callers below
do the same projection). -/
def areAdjacent (pos1 pos2 : Int × Int) : Bool :=
  if 1 < (pos1.1 - pos2.1).natAbs then false
  else if pos1.1 = pos2.1 then decide ((pos1.2 - pos2.2).natAbs = 1)
  else if pos1.1 % 2 = 0 then decide (pos2.2 = pos1.2 ∨ pos2.2 = pos1.2 - 1)
  else decide (pos2.2 = pos1.2 ∨ pos2.2 = pos1.2 + 1)

/-- `function getPipValue(num)`: the `pipMap` lookup with `|| 0` default. -/
def getPipValue (num : Int) : Int :=
  if num = 2 then 1
  else if num = 3 then 2
  else if num = 4 then 3
  else if num = 5 then 4
  else if num = 6 then 5
  else if num = 8 then 5
  else if num = 9 then 4
  else if num = 10 then 3
  else if num = 11 then 2
  else if num = 12 then 1
  else 0

/-- JavaScript `ToInt32`: wrap an integer into the signed 32-bit range. -/
def toInt32 (x : Int) : Int :=
  (x + 2 ^ 31) % 2 ^ 32 - 2 ^ 31

/-- `function hashString(str)`: the rolling hash
`hash = ((hash << 5) - hash) + char; hash = hash & hash` over the code
units, then `Math.abs`.  `hash << 5` wraps to 32 bits before the
subtraction, and `hash & hash` wraps the whole expression. -/
def hashString (str : List Nat) : Int :=
  (str.foldl (fun hash c => toInt32 (toInt32 (hash * 32) - hash + c)) 0).natAbs

/-- `Math.round` for the score range: round half up. -/
def jsRound (x : ℚ) : Int :=
  Int.floor (x + 1 / 2)

/-- `const landPositions` — the 30-tile (5-6 player) topology. -/
def landPositions : List LandPosition :=
  [⟨(1, 0), true⟩, ⟨(1, 1), true⟩, ⟨(1, 2), true⟩,
   ⟨(2, 0), true⟩, ⟨(2, 1), false⟩, ⟨(2, 2), false⟩, ⟨(2, 3), true⟩,
   ⟨(3, 0), true⟩, ⟨(3, 1), false⟩, ⟨(3, 2), false⟩, ⟨(3, 3), false⟩, ⟨(3, 4), true⟩,
   ⟨(4, 0), true⟩, ⟨(4, 1), false⟩, ⟨(4, 2), false⟩, ⟨(4, 3), false⟩, ⟨(4, 4), false⟩,
   ⟨(4, 5), true⟩,
   ⟨(5, 0), true⟩, ⟨(5, 1), false⟩, ⟨(5, 2), false⟩, ⟨(5, 3), false⟩, ⟨(5, 4), true⟩,
   ⟨(6, 0), true⟩, ⟨(6, 1), false⟩, ⟨(6, 2), false⟩, ⟨(6, 3), true⟩,
   ⟨(7, 0), true⟩, ⟨(7, 1), true⟩, ⟨(7, 2), true⟩]

/-- `const resources` — the 30-entry resource multiset (two deserts). -/
def resources : List Resource :=
  [.wood, .wood, .wood, .wood, .wood, .wood,
   .wheat, .wheat, .wheat, .wheat, .wheat, .wheat,
   .sheep, .sheep, .sheep, .sheep, .sheep, .sheep,
   .ore, .ore, .ore, .ore, .ore,
   .brick, .brick, .brick, .brick, .brick,
   .desert, .desert]

/-- `const numbers` — the 28 number tokens. -/
def numbers : List NumberToken :=
  [⟨2, "A", "•", false, 1⟩,
   ⟨3, "B", "••", false, 2⟩,
   ⟨3, "C", "••", false, 2⟩,
   ⟨4, "D", "•••", false, 3⟩,
   ⟨4, "E", "•••", false, 3⟩,
   ⟨5, "F", "••••", false, 4⟩,
   ⟨5, "G", "••••", false, 4⟩,
   ⟨6, "H", "•••••", true, 5⟩,
   ⟨6, "I", "•••••", true, 5⟩,
   ⟨8, "J", "•••••", true, 5⟩,
   ⟨8, "K", "•••••", true, 5⟩,
   ⟨9, "L", "••••", false, 4⟩,
   ⟨9, "M", "••••", false, 4⟩,
   ⟨10, "N", "•••", false, 3⟩,
   ⟨10, "O", "•••", false, 3⟩,
   ⟨11, "P", "••", false, 2⟩,
   ⟨11, "Q", "••", false, 2⟩,
   ⟨12, "R", "•", false, 1⟩,
   ⟨2, "S", "•", false, 1⟩,
   ⟨3, "T", "••", false, 2⟩,
   ⟨4, "U", "•••", false, 3⟩,
   ⟨5, "V", "••••", false, 4⟩,
   ⟨6, "W", "•••••", true, 5⟩,
   ⟨8, "X", "•••••", true, 5⟩,
   ⟨9, "Y", "••••", false, 4⟩,
   ⟨10, "Za", "•••", false, 3⟩,
   ⟨11, "Zb", "••", false, 2⟩,
   ⟨12, "Zc", "•", false, 1⟩]

/-- `landPositions.map((p, i) => p.edge ? i : -1).filter(i => i >= 0)`. -/
def edgeIndices : List Nat :=
  ((landPositions.enum.map fun p => if p.2.edge then (p.1 : Int) else -1).filter
      fun x => decide (0 ≤ x)).map Int.toNat

/-- `resources.filter(r => r !== 'desert')`. -/
def nonDesertResources : List Resource :=
  resources.filter fun r => decide (r ≠ .desert)

/-- Adjacency of consecutive rows flips parity, which makes the
parity-based neighbour rule symmetric. -/
lemma areAdjacent_symm (p q : Int × Int) : areAdjacent p q = areAdjacent q p := by
  rcases p with ⟨r1, c1⟩
  rcases q with ⟨r2, c2⟩
  simp only [areAdjacent]
  split_ifs <;> try rfl
  all_goals
    rw [Bool.eq_iff_iff]
    simp only [decide_eq_true_eq, Bool.false_eq_true, false_iff, iff_false]
    try omega

/-- C10: the adjacency predicate `areAdjacent` is symmetric (the property
Rule A of the validator relies on, checking each unordered slot pair once)
and irreflexive on integer grid positions. -/
theorem areAdjacent_symm_irrefl :
    (∀ p q : Int × Int, areAdjacent p q = areAdjacent q p) ∧
      ∀ p : Int × Int, areAdjacent p p = false := by
  refine ⟨areAdjacent_symm, fun p => ?_⟩
  simp [areAdjacent]

/-- C8: the pip-weight function is symmetric around 7, gives weight 5 to
6 and 8, and the `pipValue` carried by every configured number token is
`getPipValue` of its `val`. -/
theorem getPipValue_symmetric :
    (∀ v : Int, 2 ≤ v → v ≤ 12 → v ≠ 7 → getPipValue v = getPipValue (14 - v)) ∧
      getPipValue 6 = 5 ∧ getPipValue 8 = 5 ∧
      ∀ t ∈ numbers, t.pipValue = getPipValue t.val := by
  refine ⟨?_, by decide, by decide, by decide⟩
  intro v h2 h12 h7
  interval_cases v <;> simp_all <;> rfl

/-- C8 witness: the symmetry statement applied at `v = 2`, and the value at 6. -/
theorem getPipValue_symmetric_witness :
    getPipValue 2 = getPipValue (14 - 2) ∧ getPipValue 6 = 5 :=
  ⟨getPipValue_symmetric.1 2 (by norm_num) (by norm_num) (by norm_num),
   getPipValue_symmetric.2.1⟩

/-- Check 1 of `isBalancedPlacement`: the double loop over slot pairs
`i < j` that returns `false` on the first adjacent pair of red tokens
(`if (!num1 || !num1.red) continue; ... if (num2.red && areAdjacent(...))
return false`). -/
def redPairCheck (shuffledNumbers : List NumberToken) (nonDesertIndices : List Nat)
    (positions : List LandPosition) : Bool :=
  (List.range nonDesertIndices.length).any fun i =>
    match shuffledNumbers.get? i with
    | none => false
    | some num1 =>
      num1.red &&
        (List.range nonDesertIndices.length).any fun j =>
          decide (i < j) &&
            match shuffledNumbers.get? j with
            | none => false
            | some num2 =>
              num2.red &&
                areAdjacent (positions.getD (nonDesertIndices.getD i 0) default).pos
                  (positions.getD (nonDesertIndices.getD j 0) default).pos

/-- Check 2 of `isBalancedPlacement`: for each slot holding a token with
`pipValue ≥ 4` count the other slots `j ≠ i` that hold a `pipValue ≥ 4`
token on an adjacent tile, and return `false` when that count reaches 3
(`if (highPipNeighbors >= 3) return false`). -/
def highPipClusterCheck (shuffledNumbers : List NumberToken) (nonDesertIndices : List Nat)
    (positions : List LandPosition) : Bool :=
  (List.range nonDesertIndices.length).any fun i =>
    match shuffledNumbers.get? i with
    | none => false
    | some num1 =>
      decide (4 ≤ num1.pipValue) &&
        decide (3 ≤ (List.range nonDesertIndices.length).countP fun j =>
          decide (i ≠ j) &&
            match shuffledNumbers.get? j with
            | none => false
            | some num2 =>
              decide (4 ≤ num2.pipValue) &&
                areAdjacent (positions.getD (nonDesertIndices.getD i 0) default).pos
                  (positions.getD (nonDesertIndices.getD j 0) default).pos)

/-- `function isBalancedPlacement(shuffledNumbers, _shuffledResources,
nonDesertIndices, positions)`: both checks must pass.  The resource
argument is unused in the source as well. -/
def isBalancedPlacement (shuffledNumbers : List NumberToken)
    (_shuffledResources : List (Option Resource)) (nonDesertIndices : List Nat)
    (positions : List LandPosition) : Bool :=
  !redPairCheck shuffledNumbers nonDesertIndices positions &&
    !highPipClusterCheck shuffledNumbers nonDesertIndices positions

/-- Spec vocabulary: whether the token mapped to the `i`-th non-desert slot
is high-frequency (red); a missing token counts as not red. -/
def isRedAt (nums : List NumberToken) (i : Nat) : Bool :=
  ((nums.get? i).map (·.red)).getD false

/-- Spec vocabulary: the pip weight of the token mapped to the `i`-th
non-desert slot; a missing token counts as weight 0. -/
def pipAt (nums : List NumberToken) (i : Nat) : Int :=
  ((nums.get? i).map (·.pipValue)).getD 0

/-- Spec vocabulary: adjacency of the tiles under the `i`-th and `j`-th
non-desert slots. -/
def adjacentSlots (ndi : List Nat) (positions : List LandPosition) (i j : Nat) : Bool :=
  areAdjacent (positions.getD (ndi.getD i 0) default).pos
    (positions.getD (ndi.getD j 0) default).pos

/-- Spec Rule B counter: the number of non-desert slots `j ≠ i` adjacent to
slot `i` whose token has pip weight at least the high-pip threshold 4. -/
def highPipNeighborCount (nums : List NumberToken) (ndi : List Nat)
    (positions : List LandPosition) (i : Nat) : Nat :=
  (List.range ndi.length).countP fun j =>
    decide (i ≠ j) && (decide (4 ≤ pipAt nums j) && adjacentSlots ndi positions i j)

/-- Spec Rule A (modelled from the spec's words): no two slots assigned
high-frequency (red) tokens are adjacent — stated over unordered pairs. -/
def ruleA (nums : List NumberToken) (ndi : List Nat) (positions : List LandPosition) : Prop :=
  ∀ i j, i < ndi.length → j < ndi.length → i ≠ j →
    isRedAt nums i = true → isRedAt nums j = true →
    adjacentSlots ndi positions i j = false

/-- Spec Rule B (modelled from the spec's words): every slot with a token of
pip weight ≥ 4 has at most 2 adjacent slots with tokens of pip weight ≥ 4. -/
def ruleB (nums : List NumberToken) (ndi : List Nat) (positions : List LandPosition) : Prop :=
  ∀ i, i < ndi.length → 4 ≤ pipAt nums i →
    highPipNeighborCount nums ndi positions i ≤ 2

lemma red_match_eq (nums : List NumberToken) (i : Nat) (c : Bool) :
    (match nums.get? i with
      | none => false
      | some n1 => n1.red && c) = (isRedAt nums i && c) := by
  cases h : nums.get? i <;> (simp only [isRedAt, h]; rfl)

lemma pip_match_eq (nums : List NumberToken) (i : Nat) (c : Bool) :
    (match nums.get? i with
      | none => false
      | some n1 => decide (4 ≤ n1.pipValue) && c) = (decide (4 ≤ pipAt nums i) && c) := by
  cases h : nums.get? i <;> (simp only [pipAt, h]; rfl)

lemma redPairCheck_eq (nums : List NumberToken) (ndi : List Nat)
    (positions : List LandPosition) :
    redPairCheck nums ndi positions =
      ((List.range ndi.length).any fun i =>
        isRedAt nums i &&
          (List.range ndi.length).any fun j =>
            decide (i < j) && (isRedAt nums j && adjacentSlots ndi positions i j)) := by
  unfold redPairCheck
  simp only [adjacentSlots, red_match_eq]

lemma highPipClusterCheck_eq (nums : List NumberToken) (ndi : List Nat)
    (positions : List LandPosition) :
    highPipClusterCheck nums ndi positions =
      ((List.range ndi.length).any fun i =>
        decide (4 ≤ pipAt nums i) &&
          decide (3 ≤ highPipNeighborCount nums ndi positions i)) := by
  unfold highPipClusterCheck highPipNeighborCount
  simp only [adjacentSlots, pip_match_eq]

lemma redPairCheck_eq_false_iff (nums : List NumberToken) (ndi : List Nat)
    (positions : List LandPosition) :
    redPairCheck nums ndi positions = false ↔ ruleA nums ndi positions := by
  rw [redPairCheck_eq]
  constructor
  · intro h
    have key : ∀ a b, a < ndi.length → b < ndi.length → a < b →
        isRedAt nums a = true → isRedAt nums b = true →
        adjacentSlots ndi positions a b = true → False := by
      intro a b ha hb hab hra hrb hadj
      have htrue : ((List.range ndi.length).any fun i =>
          isRedAt nums i &&
            (List.range ndi.length).any fun j =>
              decide (i < j) && (isRedAt nums j && adjacentSlots ndi positions i j)) = true := by
        simp only [List.any_eq_true, List.mem_range]
        refine ⟨a, ha, ?_⟩
        rw [hra, Bool.true_and]
        simp only [List.any_eq_true, List.mem_range]
        exact ⟨b, hb, by rw [decide_eq_true hab, hrb, hadj]; rfl⟩
      rw [htrue] at h
      exact Bool.noConfusion h
    intro i j hi hj hij hri hrj
    by_contra hadj
    simp only [Bool.not_eq_false] at hadj
    rcases Nat.lt_trichotomy i j with hlt | heq | hgt
    · exact key i j hi hj hlt hri hrj hadj
    · exact hij heq
    · refine key j i hj hi hgt hrj hri ?_
      rw [adjacentSlots, areAdjacent_symm]
      rw [adjacentSlots] at hadj
      exact hadj
  · intro hA
    by_contra hne
    simp only [Bool.not_eq_false] at hne
    simp only [List.any_eq_true, List.mem_range, Bool.and_eq_true, decide_eq_true_eq] at hne
    obtain ⟨i, hi, hri, j, hj, hij, hrj, hadj⟩ := hne
    have := hA i j hi hj (Nat.ne_of_lt hij) hri hrj
    rw [hadj] at this
    exact Bool.noConfusion this

lemma highPipClusterCheck_eq_false_iff (nums : List NumberToken) (ndi : List Nat)
    (positions : List LandPosition) :
    highPipClusterCheck nums ndi positions = false ↔ ruleB nums ndi positions := by
  rw [highPipClusterCheck_eq]
  constructor
  · intro h i hi hpip
    by_contra hc
    push_neg at hc
    have htrue : ((List.range ndi.length).any fun i =>
        decide (4 ≤ pipAt nums i) &&
          decide (3 ≤ highPipNeighborCount nums ndi positions i)) = true := by
      simp only [List.any_eq_true, List.mem_range, Bool.and_eq_true, decide_eq_true_eq]
      exact ⟨i, hi, hpip, by omega⟩
    rw [htrue] at h
    exact Bool.noConfusion h
  · intro hB
    by_contra hne
    simp only [Bool.not_eq_false] at hne
    simp only [List.any_eq_true, List.mem_range, Bool.and_eq_true, decide_eq_true_eq] at hne
    obtain ⟨i, hi, hpip, hcnt⟩ := hne
    have := hB i hi hpip
    omega

/-- C2: the placement validator returns `true` iff Rule A (no two red
tokens on adjacent tiles, over unordered slot pairs) and Rule B (each
high-pip slot has at most 2 high-pip neighbours) both hold.  The hypothesis
restricts to candidate inputs whose non-desert slot indices address real
tiles of the topology, the domain on which the source's unchecked
`landPositions[idx]` lookups are defined. -/
theorem isBalancedPlacement_iff_rules (nums : List NumberToken)
    (res : List (Option Resource)) (ndi : List Nat) (positions : List LandPosition)
    (_hnd : ∀ i ∈ ndi, i < positions.length) :
    isBalancedPlacement nums res ndi positions = true ↔
      ruleA nums ndi positions ∧ ruleB nums ndi positions := by
  unfold isBalancedPlacement
  rw [Bool.and_eq_true, Bool.not_eq_true', Bool.not_eq_true']
  rw [redPairCheck_eq_false_iff, highPipClusterCheck_eq_false_iff]

/-- C2 witness: a two-slot candidate with two adjacent red tokens; the
validator rejects it and Rule A fails, so the equivalence is exercised on a
concrete input. -/
theorem isBalancedPlacement_iff_rules_witness :
    (∀ i ∈ [0, 1], i < [(⟨(1, 0), true⟩ : LandPosition), ⟨(1, 1), true⟩].length) ∧
      (isBalancedPlacement [⟨6, "H", "•••••", true, 5⟩, ⟨8, "J", "•••••", true, 5⟩] []
          [0, 1] [⟨(1, 0), true⟩, ⟨(1, 1), true⟩] = true ↔
        ruleA [⟨6, "H", "•••••", true, 5⟩, ⟨8, "J", "•••••", true, 5⟩] [0, 1]
            [⟨(1, 0), true⟩, ⟨(1, 1), true⟩] ∧
          ruleB [⟨6, "H", "•••••", true, 5⟩, ⟨8, "J", "•••••", true, 5⟩] [0, 1]
            [⟨(1, 0), true⟩, ⟨(1, 1), true⟩]) :=
  ⟨by decide, isBalancedPlacement_iff_rules _ _ _ _ (by decide)⟩

/-- One step of the `nonDesertIndices.forEach((idx, i) => ...)` accumulation
in `calculateCIBI`: `p = (i, idx)`, and
`if (number && resource && resource !== 'desert')
 resourcePipTotals[resource] += number.pipValue`. -/
def cibiStep (res : List (Option Resource)) (nums : List NumberToken)
    (acc : ResourcePipTotals) (p : Nat × Nat) : ResourcePipTotals :=
  match nums.get? p.1, res.getD p.2 none with
  | some number, some r =>
    match r with
    | .wood => { acc with wood := acc.wood + number.pipValue }
    | .wheat => { acc with wheat := acc.wheat + number.pipValue }
    | .sheep => { acc with sheep := acc.sheep + number.pipValue }
    | .ore => { acc with ore := acc.ore + number.pipValue }
    | .brick => { acc with brick := acc.brick + number.pipValue }
    | .desert => acc
  | _, _ => acc

/-- The pip-total accumulation of `calculateCIBI` over the non-desert slots. -/
def calcPipTotals (res : List (Option Resource)) (nums : List NumberToken)
    (ndi : List Nat) : ResourcePipTotals :=
  ndi.enum.foldl (cibiStep res nums) ⟨0, 0, 0, 0, 0⟩

/-- `function calculateCIBI(shuffledResources, shuffledNumbers,
nonDesertIndices)`: per-resource pip totals, population variance of the five
totals, and `Math.round(Math.max(0, Math.min(100, 100 - variance * 2)))`. -/
def calculateCIBI (shuffledResources : List (Option Resource))
    (shuffledNumbers : List NumberToken) (nonDesertIndices : List Nat) : CIBIResult :=
  let resourcePipTotals := calcPipTotals shuffledResources shuffledNumbers nonDesertIndices
  let pipValues : List ℚ :=
    [(resourcePipTotals.wood : ℚ), (resourcePipTotals.wheat : ℚ),
     (resourcePipTotals.sheep : ℚ), (resourcePipTotals.ore : ℚ),
     (resourcePipTotals.brick : ℚ)]
  let avgPips : ℚ := pipValues.foldl (· + ·) 0 / (pipValues.length : ℚ)
  let totalVariance : ℚ := pipValues.foldl (fun acc pips => acc + (pips - avgPips) ^ 2) 0
  let variance : ℚ := totalVariance / (pipValues.length : ℚ)
  let score : ℚ := max 0 (min 100 (100 - variance * 2))
  { score := jsRound score, pipTotals := resourcePipTotals }

/-- Spec vocabulary: population variance (mean squared deviation) of a list. -/
def popVariance (l : List ℚ) : ℚ :=
  ((l.map fun x => (x - l.sum / l.length) ^ 2).sum) / l.length

/-- Spec vocabulary: the pip weight contributed by the pair `p = (i, idx)`
to the total of the resource kind `target`. -/
def pipContribution (res : List (Option Resource)) (nums : List NumberToken)
    (target : Resource) (p : Nat × Nat) : Int :=
  match nums.get? p.1, res.getD p.2 none with
  | some number, some r => if r = target then number.pipValue else 0
  | _, _ => 0

lemma cibiStep_fields (res : List (Option Resource)) (nums : List NumberToken)
    (z : ResourcePipTotals) (p : Nat × Nat) :
    (cibiStep res nums z p).wood = z.wood + pipContribution res nums .wood p ∧
      (cibiStep res nums z p).wheat = z.wheat + pipContribution res nums .wheat p ∧
      (cibiStep res nums z p).sheep = z.sheep + pipContribution res nums .sheep p ∧
      (cibiStep res nums z p).ore = z.ore + pipContribution res nums .ore p ∧
      (cibiStep res nums z p).brick = z.brick + pipContribution res nums .brick p := by
  unfold cibiStep pipContribution
  cases hn : nums.get? p.1 <;> cases hr : res.getD p.2 none
  · simp
  · simp
  · simp
  · rename_i r
    cases r <;> simp

lemma foldl_cibiStep (res : List (Option Resource)) (nums : List NumberToken) :
    ∀ (l : List (Nat × Nat)) (z : ResourcePipTotals),
      (l.foldl (cibiStep res nums) z).wood
          = z.wood + (l.map (pipContribution res nums .wood)).sum ∧
        (l.foldl (cibiStep res nums) z).wheat
          = z.wheat + (l.map (pipContribution res nums .wheat)).sum ∧
        (l.foldl (cibiStep res nums) z).sheep
          = z.sheep + (l.map (pipContribution res nums .sheep)).sum ∧
        (l.foldl (cibiStep res nums) z).ore
          = z.ore + (l.map (pipContribution res nums .ore)).sum ∧
        (l.foldl (cibiStep res nums) z).brick
          = z.brick + (l.map (pipContribution res nums .brick)).sum := by
  intro l
  induction l with
  | nil => intro z; simp
  | cons p t ih =>
    intro z
    obtain ⟨hw, hh, hs, ho, hb⟩ := ih (cibiStep res nums z p)
    obtain ⟨sw, sh, ss, so, sb⟩ := cibiStep_fields res nums z p
    simp only [List.foldl_cons, List.map_cons, List.sum_cons]
    exact ⟨by rw [hw, sw]; ring, by rw [hh, sh]; ring, by rw [hs, ss]; ring,
      by rw [ho, so]; ring, by rw [hb, sb]; ring⟩

lemma calcPipTotals_eq (res : List (Option Resource)) (nums : List NumberToken)
    (ndi : List Nat) :
    (calcPipTotals res nums ndi).wood = (ndi.enum.map (pipContribution res nums .wood)).sum ∧
      (calcPipTotals res nums ndi).wheat
        = (ndi.enum.map (pipContribution res nums .wheat)).sum ∧
      (calcPipTotals res nums ndi).sheep
        = (ndi.enum.map (pipContribution res nums .sheep)).sum ∧
      (calcPipTotals res nums ndi).ore = (ndi.enum.map (pipContribution res nums .ore)).sum ∧
      (calcPipTotals res nums ndi).brick
        = (ndi.enum.map (pipContribution res nums .brick)).sum := by
  obtain ⟨hw, hh, hs, ho, hb⟩ := foldl_cibiStep res nums ndi.enum ⟨0, 0, 0, 0, 0⟩
  exact ⟨by rw [calcPipTotals, hw]; ring, by rw [calcPipTotals, hh]; ring,
    by rw [calcPipTotals, hs]; ring, by rw [calcPipTotals, ho]; ring,
    by rw [calcPipTotals, hb]; ring⟩

lemma popVariance_nonneg (l : List ℚ) : 0 ≤ popVariance l := by
  unfold popVariance
  apply div_nonneg _ (by positivity)
  apply List.sum_nonneg
  intro x hx
  simp only [List.mem_map] at hx
  obtain ⟨y, -, rfl⟩ := hx
  positivity

lemma jsRound_nonneg (x : ℚ) (h : 0 ≤ x) : 0 ≤ jsRound x := by
  unfold jsRound
  exact Int.le_floor.mpr (by push_cast; linarith)

lemma jsRound_le_100 (x : ℚ) (h : x ≤ 100) : jsRound x ≤ 100 := by
  unfold jsRound
  have : Int.floor (x + 1 / 2) < 101 := Int.floor_lt.mpr (by push_cast; linarith)
  omega

lemma jsRound_nonpos (x : ℚ) (h : x < 0) : jsRound x ≤ 0 := by
  unfold jsRound
  have : Int.floor (x + 1 / 2) < 1 := Int.floor_lt.mpr (by push_cast; linarith)
  omega

lemma jsRound_zero : jsRound 0 = 0 := by
  unfold jsRound
  rw [zero_add, Int.floor_eq_zero_iff]
  constructor <;> norm_num

lemma jsRound_100 : jsRound 100 = 100 := by
  unfold jsRound
  rw [Int.floor_eq_iff]
  constructor <;> norm_num

/-- `Math.round` commutes with the clamp of `calculateCIBI` on arguments
that are at most 100. -/
lemma jsRound_clamp_comm (x : ℚ) (hx : x ≤ 100) :
    jsRound (max 0 (min 100 x)) = max 0 (min 100 (jsRound x)) := by
  rw [min_eq_right hx]
  rcases le_or_lt 0 x with h0 | h0
  · rw [max_eq_right h0, min_eq_right (jsRound_le_100 x hx),
      max_eq_right (jsRound_nonneg x h0)]
  · rw [max_eq_left h0.le, jsRound_zero]
    have hle : jsRound x ≤ 0 := jsRound_nonpos x h0
    rw [min_eq_right (by omega : jsRound x ≤ 100), max_eq_left hle]

/-- The score field of `calculateCIBI` expressed through `popVariance`. -/
lemma calculateCIBI_score_eq (res : List (Option Resource)) (nums : List NumberToken)
    (ndi : List Nat) :
    (calculateCIBI res nums ndi).score =
      jsRound (max 0 (min 100 (100 -
        popVariance
          [((calcPipTotals res nums ndi).wood : ℚ), ((calcPipTotals res nums ndi).wheat : ℚ),
           ((calcPipTotals res nums ndi).sheep : ℚ), ((calcPipTotals res nums ndi).ore : ℚ),
           ((calcPipTotals res nums ndi).brick : ℚ)] * 2))) := by
  unfold calculateCIBI
  unfold popVariance
  simp only [List.foldl_cons, List.foldl_nil, List.map_cons, List.map_nil, List.sum_cons,
    List.sum_nil, List.length_cons, List.length_nil]
  push_cast
  ring_nf

/-- C3: the CIBI scorer sums pip weights per production resource kind into
five totals; its score equals `clamp(0, 100, round(100 − popVariance × 2))`
over those totals; the score is always within `[0, 100]`; and equal totals
give score exactly 100. -/
theorem calculateCIBI_spec (res : List (Option Resource)) (nums : List NumberToken)
    (ndi : List Nat) :
    ((calculateCIBI res nums ndi).pipTotals.wood
        = (ndi.enum.map (pipContribution res nums .wood)).sum ∧
      (calculateCIBI res nums ndi).pipTotals.wheat
        = (ndi.enum.map (pipContribution res nums .wheat)).sum ∧
      (calculateCIBI res nums ndi).pipTotals.sheep
        = (ndi.enum.map (pipContribution res nums .sheep)).sum ∧
      (calculateCIBI res nums ndi).pipTotals.ore
        = (ndi.enum.map (pipContribution res nums .ore)).sum ∧
      (calculateCIBI res nums ndi).pipTotals.brick
        = (ndi.enum.map (pipContribution res nums .brick)).sum) ∧
    (calculateCIBI res nums ndi).score =
      max 0 (min 100 (jsRound (100 -
        popVariance
          [((calculateCIBI res nums ndi).pipTotals.wood : ℚ),
           ((calculateCIBI res nums ndi).pipTotals.wheat : ℚ),
           ((calculateCIBI res nums ndi).pipTotals.sheep : ℚ),
           ((calculateCIBI res nums ndi).pipTotals.ore : ℚ),
           ((calculateCIBI res nums ndi).pipTotals.brick : ℚ)] * 2))) ∧
    (0 ≤ (calculateCIBI res nums ndi).score ∧ (calculateCIBI res nums ndi).score ≤ 100) ∧
    ((calculateCIBI res nums ndi).pipTotals.wood = (calculateCIBI res nums ndi).pipTotals.wheat ∧
      (calculateCIBI res nums ndi).pipTotals.wheat
        = (calculateCIBI res nums ndi).pipTotals.sheep ∧
      (calculateCIBI res nums ndi).pipTotals.sheep
        = (calculateCIBI res nums ndi).pipTotals.ore ∧
      (calculateCIBI res nums ndi).pipTotals.ore
        = (calculateCIBI res nums ndi).pipTotals.brick →
      (calculateCIBI res nums ndi).score = 100) := by
  have hT : (calculateCIBI res nums ndi).pipTotals = calcPipTotals res nums ndi := rfl
  set T := calcPipTotals res nums ndi with hTdef
  have hvar : 0 ≤ popVariance [(T.wood : ℚ), (T.wheat : ℚ), (T.sheep : ℚ),
      (T.ore : ℚ), (T.brick : ℚ)] := popVariance_nonneg _
  have hx : 100 - popVariance [(T.wood : ℚ), (T.wheat : ℚ), (T.sheep : ℚ),
      (T.ore : ℚ), (T.brick : ℚ)] * 2 ≤ 100 := by linarith
  have hscore := calculateCIBI_score_eq res nums ndi
  refine ⟨?_, ?_, ?_, ?_⟩
  · rw [hT, hTdef]
    exact calcPipTotals_eq res nums ndi
  · rw [hT, hscore, jsRound_clamp_comm _ hx]
  · rw [hscore]
    refine ⟨jsRound_nonneg _ (le_max_left _ _), jsRound_le_100 _ ?_⟩
    exact max_le (by norm_num) (min_le_left _ _)
  · rw [hT]
    intro ⟨h1, h2, h3, h4⟩
    rw [hscore, h1, h2, h3, h4]
    have hzero : popVariance [(T.brick : ℚ), (T.brick : ℚ), (T.brick : ℚ),
        (T.brick : ℚ), (T.brick : ℚ)] = 0 := by
      unfold popVariance
      simp only [List.map_cons, List.map_nil, List.sum_cons, List.sum_nil, List.length_cons,
        List.length_nil]
      push_cast
      ring_nf
    rw [hzero]
    norm_num [jsRound_100]

/-- C3 witness: the theorem applied to the empty arrangement, whose five
totals are all 0 (hence equal), giving score exactly 100. -/
theorem calculateCIBI_spec_witness :
    (calculateCIBI [] [] []).pipTotals.wood = (calculateCIBI [] [] []).pipTotals.wheat ∧
      (calculateCIBI [] [] []).score = 100 :=
  ⟨by decide, (calculateCIBI_spec [] [] []).2.2.2 (by decide)⟩

lemma cons_set_perm : ∀ (xs : List α) (m : Nat) (x b : α), xs.get? m = some b →
    (b :: xs.set m x).Perm (x :: xs) := by
  intro xs
  induction xs with
  | nil => intro m x b h; simp at h
  | cons y ys ih =>
    intro m x b h
    cases m with
    | zero =>
      simp only [List.get?_cons_zero, Option.some.injEq] at h
      subst h
      simp only [List.set_cons_zero]
      exact List.Perm.swap _ _ _
    | succ m =>
      simp only [List.get?_cons_succ] at h
      simp only [List.set_cons_succ]
      have step1 : (b :: y :: ys.set m x).Perm (y :: b :: ys.set m x) :=
        List.Perm.swap y b (ys.set m x)
      have step2 : (y :: b :: ys.set m x).Perm (y :: (x :: ys)) := (ih m x b h).cons y
      have step3 : (y :: x :: ys).Perm (x :: y :: ys) := List.Perm.swap x y ys
      exact step1.trans (step2.trans step3)

lemma set_set_perm : ∀ (l : List α) (i j : Nat) (a b : α),
    l.get? i = some a → l.get? j = some b → ((l.set i b).set j a).Perm l := by
  intro l
  induction l with
  | nil => intro i j a b hi _; simp at hi
  | cons x xs ih =>
    intro i j a b hi hj
    cases i with
    | zero =>
      simp only [List.get?_cons_zero, Option.some.injEq] at hi
      subst hi
      cases j with
      | zero =>
        simp only [List.get?_cons_zero, Option.some.injEq] at hj
        subst hj
        simp only [List.set_cons_zero]
        exact List.Perm.refl _
      | succ j =>
        simp only [List.get?_cons_succ] at hj
        simp only [List.set_cons_zero, List.set_cons_succ]
        exact cons_set_perm xs j _ _ hj
    | succ i =>
      simp only [List.get?_cons_succ] at hi
      cases j with
      | zero =>
        simp only [List.get?_cons_zero, Option.some.injEq] at hj
        subst hj
        simp only [List.set_cons_succ, List.set_cons_zero]
        exact cons_set_perm xs i _ _ hi
      | succ j =>
        simp only [List.get?_cons_succ] at hj
        simp only [List.set_cons_succ]
        exact (ih i j a b hi hj).cons x

lemma listSwap_perm (l : List α) (i j : Nat) : (listSwap l i j).Perm l := by
  rcases hi : l.get? i with _ | a <;> rcases hj : l.get? j with _ | b <;>
    simp only [listSwap, hi, hj]
  · exact List.Perm.refl l
  · exact List.Perm.refl l
  · exact List.Perm.refl l
  · exact set_set_perm l i j a b hi hj

lemma fyAux_perm (rng : Int → ℚ) (seed : Int) :
    ∀ (k : Nat) (arr : List α), (fyAux rng seed arr k).Perm arr := by
  intro k
  induction k with
  | zero => intro arr; exact List.Perm.refl arr
  | succ k ih =>
    intro arr
    exact (ih _).trans (listSwap_perm arr (k + 1) (jIndex rng seed (k + 1)))

lemma shuffleArray_perm (rng : Int → ℚ) (l : List α) (seed : Int) :
    (shuffleArray rng l seed).Perm l :=
  fyAux_perm rng seed (l.length - 1) l

/-- Under the PRNG contract the swap target of step `i` lies in `[0, i]`,
so every swap of `fyAux` is in range (`listSwap` never takes its fallback
branch on the contract domain). -/
lemma jIndex_le (rng : Int → ℚ) (hr : ∀ s : Int, 0 ≤ rng s ∧ rng s < 1)
    (seed : Int) (i : Nat) : jIndex rng seed i ≤ i := by
  unfold jIndex
  obtain ⟨h0, h1⟩ := hr (seed + i)
  have hmul0 : 0 ≤ rng (seed + i) * ((i : ℚ) + 1) := by positivity
  have hmul1 : rng (seed + i) * ((i : ℚ) + 1) < (i : ℚ) + 1 := by nlinarith
  have hflt : Int.floor (rng (seed + i) * ((i : ℚ) + 1)) < (i : Int) + 1 :=
    Int.floor_lt.mpr (by push_cast; linarith)
  omega

/-- C7: `shuffleArray` returns a permutation of its input, for any element
type and any seed, under the PRNG contract (spec 4.1); on that domain the
embedding matches the source's swaps exactly (`jIndex_le`).  The remaining
parts of the claim are definitional in the embedding: the function is pure
(the input list is immutable and two calls with the same seed and input are
equal by reflexivity), and the iteration is exactly Fisher-Yates with swap
target `floor(rng(seed + i) * (i + 1))` (`jIndex`, `fyAux`). -/
theorem shuffleArray_permutes {α : Type _} (rng : Int → ℚ)
    (_hr : ∀ s : Int, 0 ≤ rng s ∧ rng s < 1) (array : List α) (seed : Int) :
    (shuffleArray rng array seed).Perm array :=
  shuffleArray_perm rng array seed

/-- The constant-zero generator, used to exercise theorems with a PRNG
hypothesis on concrete inputs; it satisfies the PRNG contract. -/
def rngZero : Int → ℚ := fun _ => 0

lemma rngZero_contract : ∀ s : Int, 0 ≤ rngZero s ∧ rngZero s < 1 := by
  intro s
  constructor <;> norm_num [rngZero]

/-- C7 witness: the contract holds for `rngZero` and the shuffle of a
concrete list is a permutation of it. -/
theorem shuffleArray_permutes_witness :
    (∀ s : Int, 0 ≤ rngZero s ∧ rngZero s < 1) ∧
      (shuffleArray rngZero [1, 2, 3] 0).Perm [1, 2, 3] :=
  ⟨rngZero_contract, shuffleArray_permutes rngZero rngZero_contract [1, 2, 3] 0⟩

lemma set_append_none_perm : ∀ (l : List (Option α)) (k : Nat) (v : α),
    l.get? k = some none → ((l.set k (some v)) ++ [none]).Perm (l ++ [some v]) := by
  intro l
  induction l with
  | nil => intro k v h; simp at h
  | cons x xs ih =>
    intro k v h
    cases k with
    | zero =>
      simp only [List.get?_cons_zero, Option.some.injEq] at h
      subst h
      simp only [List.set_cons_zero, List.cons_append]
      have s1 : (xs ++ [none] : List (Option α)).Perm (none :: xs) :=
        List.perm_append_singleton _ _
      have s2 : (some v :: none :: xs : List (Option α)).Perm (none :: some v :: xs) :=
        List.Perm.swap _ _ _
      have s3 : (some v :: xs : List (Option α)).Perm (xs ++ [some v]) :=
        (List.perm_append_singleton _ _).symm
      exact ((s1.cons (some v)).trans s2).trans (s3.cons none)
    | succ k =>
      simp only [List.get?_cons_succ] at h
      simp only [List.set_cons_succ, List.cons_append]
      exact (ih k v h).cons x

lemma foldl_set_get?_not_mem : ∀ (pairs : List (Nat × α)) (b : List (Option α)) (n : Nat),
    n ∉ pairs.map Prod.fst →
    (pairs.foldl (fun acc q => acc.set q.1 (some q.2)) b).get? n = b.get? n := by
  intro pairs
  induction pairs with
  | nil => intro b n _; rfl
  | cons q t ih =>
    intro b n hn
    simp only [List.map_cons, List.mem_cons, not_or] at hn
    rw [List.foldl_cons, ih _ n hn.2, List.get?_set_ne _ _ (Ne.symm hn.1)]

lemma foldl_set_get?_mem : ∀ (pairs : List (Nat × α)) (b : List (Option α)) (k : Nat) (v : α),
    (pairs.map Prod.fst).Nodup → (k, v) ∈ pairs → k < b.length →
    (pairs.foldl (fun acc q => acc.set q.1 (some q.2)) b).get? k = some (some v) := by
  intro pairs
  induction pairs with
  | nil => intro b k v _ hmem _; simp at hmem
  | cons q t ih =>
    intro b k v hnd hmem hk
    simp only [List.map_cons, List.nodup_cons] at hnd
    rcases List.mem_cons.mp hmem with heq | hmem2
    · subst heq
      rw [List.foldl_cons, foldl_set_get?_not_mem t _ k hnd.1,
        List.get?_set_eq_of_lt _ hk]
    · rw [List.foldl_cons]
      exact ih _ k v hnd.2 hmem2 (by simpa using hk)

lemma foldl_set_append_perm : ∀ (pairs : List (Nat × α)) (b : List (Option α)),
    (∀ q ∈ pairs, b.get? q.1 = some none) → (pairs.map Prod.fst).Nodup →
    ((pairs.foldl (fun acc q => acc.set q.1 (some q.2)) b) ++
        List.replicate pairs.length (none : Option α)).Perm
      (b ++ pairs.map fun q => some q.2) := by
  intro pairs
  induction pairs with
  | nil => intro b _ _; simp
  | cons q t ih =>
    intro b hb hnd
    simp only [List.map_cons, List.nodup_cons] at hnd
    have hbq : b.get? q.1 = some none := hb q (List.mem_cons_self q t)
    have hb2 : ∀ p ∈ t, (b.set q.1 (some q.2)).get? p.1 = some none := by
      intro p hp
      have hne : q.1 ≠ p.1 := by
        intro he
        exact hnd.1 (he ▸ List.mem_map_of_mem Prod.fst hp)
      rw [List.get?_set_ne _ _ hne]
      exact hb p (List.mem_cons_of_mem q hp)
    have hIH := ih (b.set q.1 (some q.2)) hb2 hnd.2
    have hswap : ((b.set q.1 (some q.2)) ++ [none]).Perm (b ++ [some q.2]) :=
      set_append_none_perm b q.1 q.2 hbq
    simp only [List.foldl_cons, List.length_cons, List.map_cons]
    rw [List.replicate_succ' t.length (none : Option α), ← List.append_assoc]
    have h1 := hIH.append_right [none]
    have h2 : ((t.map fun p : Nat × α => some p.2) ++ [none] : List (Option α)).Perm
        ([none] ++ t.map fun p : Nat × α => some p.2) := List.perm_append_comm
    have h3 : ((b.set q.1 (some q.2) ++ (t.map fun p : Nat × α => some p.2)) ++ [none]).Perm
        ((b.set q.1 (some q.2) ++ [none]) ++ (t.map fun p : Nat × α => some p.2)) := by
      rw [List.append_assoc, List.append_assoc]
      exact List.Perm.append_left _ h2
    have h4 := hswap.append_right (t.map fun p : Nat × α => some p.2)
    have h5 : (b ++ [some q.2] ++ (t.map fun p : Nat × α => some p.2)).Perm
        (b ++ (some q.2 :: t.map fun p : Nat × α => some p.2)) := by
      rw [List.append_assoc, List.singleton_append]
    exact ((h1.trans h3).trans h4).trans h5

/-- The number-placement retry loop of `shuffleBoard`:
`while (attempts < 200 && !isBalancedPlacement(...)) {
   shuffledNumbers = shuffleArray(numbers, seed + 1000 + attempts); attempts++; }`.
The loop variable `shuffledNumbers` is the `cur` argument; termination is by
the explicit bound `200 - attempts`. -/
def numbersLoop (rng : Int → ℚ) (seed : Int) (shuffledResources : List (Option Resource))
    (ndi : List Nat) (attempts : Nat) (cur : List NumberToken) : List NumberToken :=
  if h : attempts < 200 ∧ isBalancedPlacement cur shuffledResources ndi landPositions = false then
    numbersLoop rng seed shuffledResources ndi (attempts + 1)
      (shuffleArray rng numbers (seed + 1000 + attempts))
  else cur
termination_by 200 - attempts
decreasing_by omega

lemma numbersLoop_result (rng : Int → ℚ) (seed : Int) (res : List (Option Resource))
    (ndi : List Nat) : ∀ (k a : Nat) (cur : List NumberToken), 200 - a = k →
    numbersLoop rng seed res ndi a cur = cur ∨
      ∃ b : Nat, numbersLoop rng seed res ndi a cur
        = shuffleArray rng numbers (seed + 1000 + b) := by
  intro k
  induction k with
  | zero =>
    intro a cur hk
    rw [numbersLoop, dif_neg]
    · left; rfl
    · intro hcond
      omega
  | succ k ih =>
    intro a cur hk
    rw [numbersLoop]
    by_cases h : a < 200 ∧ isBalancedPlacement cur res ndi landPositions = false
    · rw [dif_pos h]
      rcases ih (a + 1) (shuffleArray rng numbers (seed + 1000 + a)) (by omega) with h1 | hb
      · exact Or.inr ⟨a, h1⟩
      · exact Or.inr hb
    · rw [dif_neg h]
      left
      rfl

lemma numbersLoop_valid_or_last (rng : Int → ℚ) (seed : Int) (res : List (Option Resource))
    (ndi : List Nat) : ∀ (k a : Nat) (cur : List NumberToken), 200 - a = k → a < 200 →
    isBalancedPlacement (numbersLoop rng seed res ndi a cur) res ndi landPositions = true ∨
      numbersLoop rng seed res ndi a cur = shuffleArray rng numbers (seed + 1000 + 199) := by
  intro k
  induction k with
  | zero => intro a cur hk ha; omega
  | succ k ih =>
    intro a cur hk ha
    rw [numbersLoop]
    by_cases hbal : isBalancedPlacement cur res ndi landPositions = true
    · rw [dif_neg]
      · exact Or.inl hbal
      · intro hcond
        rw [hcond.2] at hbal
        exact Bool.noConfusion hbal
    · have hfalse : isBalancedPlacement cur res ndi landPositions = false := by
        revert hbal
        cases isBalancedPlacement cur res ndi landPositions <;> simp
      rw [dif_pos ⟨ha, hfalse⟩]
      rcases Nat.lt_or_ge (a + 1) 200 with h2 | h2
      · exact ih (a + 1) _ (by omega) h2
      · have ha199 : a = 199 := by omega
        subst ha199
        rw [numbersLoop, dif_neg]
        · right
          norm_num
        · intro hcond
          omega

lemma numbersLoop_perm (rng : Int → ℚ) (seed : Int) (res : List (Option Resource))
    (ndi : List Nat) (a : Nat) (cur : List NumberToken) (h : cur.Perm numbers) :
    (numbersLoop rng seed res ndi a cur).Perm numbers := by
  rcases numbersLoop_result rng seed res ndi (200 - a) a cur rfl with h1 | ⟨b, hb⟩
  · rw [h1]; exact h
  · rw [hb]; exact shuffleArray_perm rng numbers (seed + 1000 + b)

/-- C4: for every seed (and any PRNG satisfying the contract) the retry
loop, started as in `shuffleBoard` with the `seed + 1000` shuffle and
`attempts = 0`, is a total function bounded by 200 reshuffles; its result
is always a complete token assignment (a permutation of the 28 configured
tokens, so no exception can reach the caller), and it either satisfies the
balance validator or is the candidate of the final attempt
(`shuffleArray(numbers, seed + 1000 + 199)`), which is accepted as-is. -/
theorem numbersLoop_bounded_total (rng : Int → ℚ)
    (_hr : ∀ s : Int, 0 ≤ rng s ∧ rng s < 1) (seed : Int)
    (res : List (Option Resource)) (ndi : List Nat) :
    (numbersLoop rng seed res ndi 0 (shuffleArray rng numbers (seed + 1000))).Perm numbers ∧
      (isBalancedPlacement (numbersLoop rng seed res ndi 0
            (shuffleArray rng numbers (seed + 1000))) res ndi landPositions = true ∨
        numbersLoop rng seed res ndi 0 (shuffleArray rng numbers (seed + 1000))
          = shuffleArray rng numbers (seed + 1000 + 199)) := by
  constructor
  · exact numbersLoop_perm rng seed res ndi 0 _ (shuffleArray_perm rng numbers (seed + 1000))
  · exact numbersLoop_valid_or_last rng seed res ndi 200 0 _ rfl (by norm_num)

/-- C4 witness: the loop run with the zero generator on the empty
non-desert index list (for which every candidate is balanced). -/
theorem numbersLoop_bounded_total_witness :
    (numbersLoop rngZero 0 [] [] 0 (shuffleArray rngZero numbers 1000)).Perm numbers ∧
      (isBalancedPlacement (numbersLoop rngZero 0 [] [] 0
            (shuffleArray rngZero numbers 1000)) [] [] landPositions = true ∨
        numbersLoop rngZero 0 [] [] 0 (shuffleArray rngZero numbers 1000)
          = shuffleArray rngZero numbers (0 + 1000 + 199)) := by
  have h := numbersLoop_bounded_total rngZero rngZero_contract 0 [] []
  norm_num at h ⊢
  exact h

lemma get?_replicate_some (a : α) {n m : Nat} (h : m < n) :
    (List.replicate n a).get? m = some a := by
  rw [List.get?_eq_getElem?]
  simp [List.getElem?_replicate, h]

lemma foldl_set_length : ∀ (pairs : List (Nat × α)) (b : List (Option α)),
    (pairs.foldl (fun acc q => acc.set q.1 (some q.2)) b).length = b.length := by
  intro pairs
  induction pairs with
  | nil => intro b; rfl
  | cons q t ih => intro b; rw [List.foldl_cons, ih]; simp

lemma filterMap_id_map_some : ∀ (l : List β), ((l.map some).filterMap id) = l := by
  intro l
  induction l with
  | nil => rfl
  | cons x t ih => simp [List.filterMap_cons, ih]

lemma map_some_snd_zip : ∀ (l₁ : List Nat) (l₂ : List β), l₂.length ≤ l₁.length →
    ((l₁.zip l₂).map fun q => some q.2) = l₂.map some := by
  intro l₁
  induction l₁ with
  | nil =>
    intro l₂ h
    cases l₂ with
    | nil => rfl
    | cons b t => simp at h
  | cons a t ih =>
    intro l₂ h
    cases l₂ with
    | nil => rfl
    | cons b t2 =>
      simp only [List.zip_cons_cons, List.map_cons]
      rw [ih t2 (by simpa using h)]

/-- `const edgeIndices` is a sound list of edge tiles: no duplicates, at
least the two desert slots available, and every entry addresses an edge
tile of the 30-slot topology. -/
lemma edgeIndices_facts : edgeIndices.Nodup ∧ 2 ≤ edgeIndices.length ∧
    ∀ i ∈ edgeIndices, i < 30 ∧ (landPositions.getD i default).edge = true := by decide

/-- `nonDesertResources` facts used by the assembly proof. -/
lemma nonDesert_facts : nonDesertResources.length = 28 ∧
    Resource.desert ∉ nonDesertResources ∧
    resources.Perm (Resource.desert :: Resource.desert :: nonDesertResources) := by decide

/-- The resource-assignment step of `shuffleBoard`:
`shuffledResources[desertPos1] = 'desert'; shuffledResources[desertPos2] =
'desert';` on a fresh `new Array(30)`, followed by
`remainingIndices.forEach((idx, i) => shuffledResources[idx] =
shuffledNonDesert[i])` where `remainingIndices` collects `0..29` without
the two desert positions. -/
def assembleResources (d1 d2 : Nat) (sND : List Resource) : List (Option Resource) :=
  (((List.range 30).filter fun i => decide (i ≠ d1) && decide (i ≠ d2)).zip sND).foldl
    (fun acc q => acc.set q.1 (some q.2))
    (((List.replicate 30 (none : Option Resource)).set d1 (some .desert)).set d2 (some .desert))

lemma assemble_rem_length (d1 d2 : Nat) (h1 : d1 < 30) (h2 : d2 < 30) (h12 : d1 ≠ d2) :
    ((List.range 30).filter fun i => decide (i ≠ d1) && decide (i ≠ d2)).length = 28 := by
  have hnd : (List.range 30).Nodup := List.nodup_range 30
  have hsplit : ((List.range 30).filter fun i => decide (i ≠ d1) && decide (i ≠ d2)) =
      ((List.range 30).filter fun i => decide (i ≠ d2)).filter fun i => decide (i ≠ d1) := by
    rw [List.filter_filter]
  have e2 : ((List.range 30).filter fun i => decide (i ≠ d2)) = (List.range 30).erase d2 := by
    rw [hnd.erase_eq_filter d2]
    apply List.filter_congr
    intro a _
    by_cases h : a = d2 <;> simp [h]
  have e1 : (((List.range 30).erase d2).filter fun i => decide (i ≠ d1)) =
      ((List.range 30).erase d2).erase d1 := by
    rw [(hnd.erase d2).erase_eq_filter d1]
    apply List.filter_congr
    intro a _
    by_cases h : a = d1 <;> simp [h]
  rw [hsplit, e2, e1]
  have hm2 : d2 ∈ List.range 30 := List.mem_range.mpr h2
  have hm1 : d1 ∈ (List.range 30).erase d2 :=
    (List.mem_erase_of_ne h12).mpr (List.mem_range.mpr h1)
  rw [List.length_erase_of_mem hm1, List.length_erase_of_mem hm2, List.length_range]

/-- All structural facts about the assembled resource array, for arbitrary
distinct in-range desert positions and any permutation of the non-desert
multiset. -/
lemma assembleResources_props (d1 d2 : Nat) (h1 : d1 < 30) (h2 : d2 < 30) (h12 : d1 ≠ d2)
    (sND : List Resource) (hsND : sND.Perm nonDesertResources) :
    (assembleResources d1 d2 sND).length = 30 ∧
      (∀ i : Nat, (assembleResources d1 d2 sND).getD i none = some Resource.desert →
        i = d1 ∨ i = d2) ∧
      (assembleResources d1 d2 sND).countP (fun r => decide (r = some Resource.desert)) = 2 ∧
      ((assembleResources d1 d2 sND).filterMap id).Perm resources ∧
      none ∉ assembleResources d1 d2 sND ∧
      (assembleResources d1 d2 sND).countP (fun r => decide (r ≠ some Resource.desert)) = 28 := by
  obtain ⟨hndlen, hdns, hresperm⟩ := nonDesert_facts
  have hsndlen : sND.length = 28 := hsND.length_eq.trans hndlen
  have hmem_rem : ∀ i : Nat,
      i ∈ ((List.range 30).filter fun i => decide (i ≠ d1) && decide (i ≠ d2)) ↔
        i < 30 ∧ i ≠ d1 ∧ i ≠ d2 := by
    intro i
    simp [List.mem_filter, List.mem_range, and_assoc]
  have hremlen : ((List.range 30).filter fun i => decide (i ≠ d1) && decide (i ≠ d2)).length
      = 28 := assemble_rem_length d1 d2 h1 h2 h12
  have hremnodup : ((List.range 30).filter fun i => decide (i ≠ d1) && decide (i ≠ d2)).Nodup :=
    (List.nodup_range 30).filter _
  set rem : List Nat := (List.range 30).filter fun i => decide (i ≠ d1) && decide (i ≠ d2)
    with hremdef
  have hzfst : (rem.zip sND).map Prod.fst = rem :=
    List.map_fst_zip rem sND (by rw [hremlen, hsndlen])
  have hres_eq : assembleResources d1 d2 sND
      = ((d1, Resource.desert) :: (d2, Resource.desert) :: rem.zip sND).foldl
          (fun acc q => acc.set q.1 (some q.2)) (List.replicate 30 (none : Option Resource)) :=
    rfl
  set pairs : List (Nat × Resource) :=
    (d1, Resource.desert) :: (d2, Resource.desert) :: rem.zip sND with hpairsdef
  have hd1 : d1 ∉ rem := fun h => ((hmem_rem d1).mp h).2.1 rfl
  have hd2 : d2 ∉ rem := fun h => ((hmem_rem d2).mp h).2.2 rfl
  have hfst : pairs.map Prod.fst = d1 :: d2 :: rem := by
    rw [hpairsdef]
    simp [hzfst]
  have hnodup : (pairs.map Prod.fst).Nodup := by
    rw [hfst]
    simp only [List.nodup_cons, List.mem_cons, not_or]
    exact ⟨⟨h12, hd1⟩, hd2, hremnodup⟩
  have hget : ∀ q ∈ pairs, (List.replicate 30 (none : Option Resource)).get? q.1 = some none := by
    intro q hq
    apply get?_replicate_some
    rcases List.mem_cons.mp hq with rfl | hq2
    · exact h1
    rcases List.mem_cons.mp hq2 with rfl | hq3
    · exact h2
    · have hq1 : q.1 ∈ rem := by
        obtain ⟨a, b⟩ := q
        exact (List.of_mem_zip hq3).1
      exact ((hmem_rem _).mp hq1).1
  have hlen : pairs.length = 30 := by
    rw [hpairsdef]
    simp [List.length_zip, hremlen, hsndlen]
  have hperm0 := foldl_set_append_perm pairs (List.replicate 30 none) hget hnodup
  rw [hlen] at hperm0
  have hmapsome : (pairs.map fun q => some q.2)
      = some Resource.desert :: some Resource.desert :: ((rem.zip sND).map fun q => some q.2) := by
    rw [hpairsdef]
    simp
  have hsndzip : ((rem.zip sND).map fun q => some q.2) = sND.map some :=
    map_some_snd_zip rem sND (by rw [hremlen, hsndlen])
  have htarget : (assembleResources d1 d2 sND).Perm
      (some Resource.desert :: some Resource.desert :: sND.map some) := by
    rw [← List.perm_append_right_iff (List.replicate 30 (none : Option Resource)), hres_eq]
    refine hperm0.trans ?_
    rw [hmapsome, hsndzip]
    exact List.perm_append_comm
  have hdesert_not_snd : Resource.desert ∉ sND := fun h => hdns (hsND.mem_iff.mp h)
  have hlen30 : (assembleResources d1 d2 sND).length = 30 := by
    rw [hres_eq, foldl_set_length]
    simp
  refine ⟨hlen30, ?_, ?_, ?_, ?_, ?_⟩
  · -- every desert slot is one of the two chosen positions
    intro i hi
    by_contra hcon
    push_neg at hcon
    obtain ⟨hne1, hne2⟩ := hcon
    by_cases hilt : i < 30
    · have hirem : i ∈ rem := (hmem_rem i).mpr ⟨hilt, hne1, hne2⟩
      obtain ⟨n, hn⟩ := List.get?_of_mem hirem
      have hnlt : n < rem.length := by
        by_contra hge
        push_neg at hge
        rw [List.get?_eq_none.mpr hge] at hn
        exact Option.noConfusion hn
      have hnlt2 : n < sND.length := by omega
      obtain ⟨v, hvn⟩ : ∃ v, sND.get? n = some v := ⟨_, List.get?_eq_get hnlt2⟩
      have hvmem : v ∈ sND := List.get?_mem hvn
      have hzip : (rem.zip sND).get? n = some (i, v) := by
        rw [List.get?_eq_getElem?]
        rw [List.get?_eq_getElem?] at hn hvn
        exact List.getElem?_zip_eq_some.mpr ⟨hn, hvn⟩
      have hmempairs : (i, v) ∈ pairs := by
        rw [hpairsdef]
        exact List.mem_cons_of_mem _ (List.mem_cons_of_mem _ (List.get?_mem hzip))
      have hgot := foldl_set_get?_mem pairs (List.replicate 30 none) i v hnodup hmempairs
        (by simpa using hilt)
      rw [← hres_eq] at hgot
      rw [List.getD_eq_get?, hgot] at hi
      simp only [Option.getD_some, Option.some.injEq] at hi
      exact hdesert_not_snd (hi ▸ hvmem)
    · rw [List.getD_eq_default _ _ (by omega : (assembleResources d1 d2 sND).length ≤ i)] at hi
      exact Option.noConfusion hi
  · -- exactly two desert entries
    rw [htarget.countP_eq]
    have hzero : (sND.map some).countP (fun r => decide (r = some Resource.desert)) = 0 := by
      rw [List.countP_eq_zero]
      intro a ha
      simp only [List.mem_map] at ha
      obtain ⟨x, hx, rfl⟩ := ha
      simp only [decide_eq_true_eq, Option.some.injEq]
      intro he
      exact hdesert_not_snd (he ▸ hx)
    simp [List.countP_cons, hzero]
  · -- the resource multiset is exactly the configured one
    have h := htarget.filterMap id
    have hcomp : (some Resource.desert :: some Resource.desert :: sND.map some).filterMap id
        = Resource.desert :: Resource.desert :: sND := by
      simp [List.filterMap_cons, filterMap_id_map_some]
    rw [hcomp] at h
    exact h.trans (((hsND.cons Resource.desert).cons Resource.desert).trans hresperm.symm)
  · -- no slot is left unassigned
    intro hmem
    rw [htarget.mem_iff] at hmem
    simp [List.mem_map] at hmem
  · -- exactly 28 non-desert entries
    rw [htarget.countP_eq]
    have hfull : (sND.map some).countP (fun r => decide (r ≠ some Resource.desert))
        = (sND.map some).length := by
      rw [List.countP_eq_length]
      intro a ha
      simp only [List.mem_map] at ha
      obtain ⟨x, hx, rfl⟩ := ha
      simp only [decide_eq_true_eq, ne_eq, Option.some.injEq]
      intro he
      exact hdesert_not_snd (he ▸ hx)
    rw [List.countP_cons, List.countP_cons, hfull]
    simp [hsndlen]

/-- The resource-shuffling phase of `shuffleBoard`: shuffle the edge
indices with `seed`, take the first two entries as the desert positions,
and distribute `shuffleArray(nonDesertResources, seed + 500)` over the
remaining slots in ascending order. -/
def shuffleResourcesStep (rng : Int → ℚ) (seed : Int) : List (Option Resource) :=
  let shuffledEdges := shuffleArray rng edgeIndices seed
  assembleResources (shuffledEdges.getD 0 0) (shuffledEdges.getD 1 0)
    (shuffleArray rng nonDesertResources (seed + 500))

/-- `shuffledResources.map((r, i) => r !== 'desert' ? i : -1).filter(i => i >= 0)`
— the non-desert slot indices in ascending order (an unset/`undefined`
slot also counts as non-desert, as in the source). -/
def nonDesertIndicesOf (res : List (Option Resource)) : List Nat :=
  ((res.enum.map fun p => if p.2 ≠ some Resource.desert then (p.1 : Int) else -1).filter
      fun x => decide (0 ≤ x)).map Int.toNat

/-- The output of one generation: everything `shuffleBoard` computes and
hands to the display code (which is out of scope). -/
structure Layout where
  friendlySeedName : List Nat
  shuffledResources : List (Option Resource)
  shuffledNumbers : List NumberToken
  nonDesertIndices : List Nat
  cibi : CIBIResult

/-- `function shuffleBoard()`, restricted to its computational core: the
seed text (if nonempty) or the externally generated friendly name
(`fallbackName`, standing for the `Math.random`-based
`generateRandomFriendlyName()`) is hashed into the numeric seed; resources,
numbers and the CIBI score are derived from it as in the source. -/
def generateLayout (rng : Int → ℚ) (seedInput fallbackName : List Nat) : Layout :=
  let friendlySeedName := if seedInput = [] then fallbackName else seedInput
  let seed : Int := hashString friendlySeedName
  let shuffledResources := shuffleResourcesStep rng seed
  let nonDesertIndices := nonDesertIndicesOf shuffledResources
  let shuffledNumbers := numbersLoop rng seed shuffledResources nonDesertIndices 0
    (shuffleArray rng numbers (seed + 1000))
  ⟨friendlySeedName, shuffledResources, shuffledNumbers, nonDesertIndices,
    calculateCIBI shuffledResources shuffledNumbers nonDesertIndices⟩

lemma generateLayout_resources (rng : Int → ℚ) (seedInput fallbackName : List Nat) :
    (generateLayout rng seedInput fallbackName).shuffledResources
      = shuffleResourcesStep rng (hashString (if seedInput = [] then fallbackName
          else seedInput)) := by
  rw [generateLayout]

lemma generateLayout_ndi (rng : Int → ℚ) (seedInput fallbackName : List Nat) :
    (generateLayout rng seedInput fallbackName).nonDesertIndices
      = nonDesertIndicesOf ((generateLayout rng seedInput fallbackName).shuffledResources) := by
  rw [generateLayout_resources, generateLayout]

lemma generateLayout_numbers (rng : Int → ℚ) (seedInput fallbackName : List Nat) :
    (generateLayout rng seedInput fallbackName).shuffledNumbers
      = numbersLoop rng (hashString (if seedInput = [] then fallbackName else seedInput))
          ((generateLayout rng seedInput fallbackName).shuffledResources)
          ((generateLayout rng seedInput fallbackName).nonDesertIndices) 0
          (shuffleArray rng numbers
            (hashString (if seedInput = [] then fallbackName else seedInput) + 1000)) := by
  rw [generateLayout_ndi, generateLayout_resources, generateLayout]

/-- The two desert positions drawn from the shuffled edge list are distinct
edge-tile indices. -/
lemma desert_positions_facts (rng : Int → ℚ) (seed : Int) :
    (shuffleArray rng edgeIndices seed).getD 0 0 ∈ edgeIndices ∧
      (shuffleArray rng edgeIndices seed).getD 1 0 ∈ edgeIndices ∧
      (shuffleArray rng edgeIndices seed).getD 0 0
        ≠ (shuffleArray rng edgeIndices seed).getD 1 0 := by
  obtain ⟨hnd, hlen2, -⟩ := edgeIndices_facts
  have hperm := shuffleArray_perm rng edgeIndices seed
  have hlen : (shuffleArray rng edgeIndices seed).length = edgeIndices.length :=
    hperm.length_eq
  have hnodup : (shuffleArray rng edgeIndices seed).Nodup := hnd.perm hperm.symm
  rcases hsE : shuffleArray rng edgeIndices seed with _ | ⟨a, _ | ⟨b, t⟩⟩
  · rw [hsE] at hlen; simp at hlen; omega
  · rw [hsE] at hlen; simp at hlen; omega
  · rw [hsE] at hperm hnodup
    simp only [List.nodup_cons, List.mem_cons, not_or] at hnodup
    refine ⟨?_, ?_, ?_⟩
    · exact hperm.mem_iff.mp (List.mem_cons_self a _)
    · exact hperm.mem_iff.mp (List.mem_cons_of_mem a (List.mem_cons_self b t))
    · simpa using hnodup.1.1

set_option maxHeartbeats 2000000 in
/-- Structural facts about the resource phase of a generated layout. -/
lemma shuffleResourcesStep_props (rng : Int → ℚ) (seed : Int) :
    (shuffleResourcesStep rng seed).length = 30 ∧
      (∀ i : Nat, (shuffleResourcesStep rng seed).getD i none = some Resource.desert →
        (landPositions.getD i default).edge = true) ∧
      (shuffleResourcesStep rng seed).countP (fun r => decide (r = some Resource.desert)) = 2 ∧
      ((shuffleResourcesStep rng seed).filterMap id).Perm resources ∧
      none ∉ shuffleResourcesStep rng seed ∧
      (shuffleResourcesStep rng seed).countP
        (fun r => decide (r ≠ some Resource.desert)) = 28 := by
  obtain ⟨-, -, hedge⟩ := edgeIndices_facts
  obtain ⟨hm1, hm2, hne⟩ := desert_positions_facts rng seed
  have hprops := assembleResources_props ((shuffleArray rng edgeIndices seed).getD 0 0)
    ((shuffleArray rng edgeIndices seed).getD 1 0) (hedge _ hm1).1 (hedge _ hm2).1 hne
    (shuffleArray rng nonDesertResources (seed + 500))
    (shuffleArray_perm rng nonDesertResources (seed + 500))
  have hstep : shuffleResourcesStep rng seed
      = assembleResources ((shuffleArray rng edgeIndices seed).getD 0 0)
          ((shuffleArray rng edgeIndices seed).getD 1 0)
          (shuffleArray rng nonDesertResources (seed + 500)) := by
    simp only [shuffleResourcesStep]
  obtain ⟨hlen, hpt, hcnt, hfm, hnone, hcp⟩ := hprops
  refine ⟨by rw [hstep]; exact hlen, ?_, by rw [hstep]; exact hcnt, by rw [hstep]; exact hfm,
    by rw [hstep]; exact hnone, by rw [hstep]; exact hcp⟩
  intro i hi
  rw [hstep] at hi
  rcases hpt i hi with rfl | rfl
  · exact (hedge _ hm1).2
  · exact (hedge _ hm2).2

/-- C5: in every generated layout every desert slot is an edge tile of the
topology, and the number of desert slots equals the configured desert count
(2 for the 30-tile board). -/
theorem generateLayout_desert_on_edge (rng : Int → ℚ)
    (_hr : ∀ s : Int, 0 ≤ rng s ∧ rng s < 1) (seedInput fallbackName : List Nat) :
    (∀ i : Nat, (generateLayout rng seedInput fallbackName).shuffledResources.getD i none
        = some Resource.desert → (landPositions.getD i default).edge = true) ∧
      (generateLayout rng seedInput fallbackName).shuffledResources.countP
        (fun r => decide (r = some Resource.desert)) = 2 := by
  obtain ⟨-, hpt, hcnt, -, -, -⟩ := shuffleResourcesStep_props rng
    (hashString (if seedInput = [] then fallbackName else seedInput))
  rw [generateLayout_resources]
  exact ⟨hpt, hcnt⟩

/-- C5 witness. -/
theorem generateLayout_desert_on_edge_witness :
    (∀ s : Int, 0 ≤ rngZero s ∧ rngZero s < 1) ∧
      ((∀ i : Nat, (generateLayout rngZero [65] [66]).shuffledResources.getD i none
          = some Resource.desert → (landPositions.getD i default).edge = true) ∧
        (generateLayout rngZero [65] [66]).shuffledResources.countP
          (fun r => decide (r = some Resource.desert)) = 2) :=
  ⟨rngZero_contract, generateLayout_desert_on_edge rngZero rngZero_contract [65] [66]⟩

lemma nonDesertIndicesOf_length (res : List (Option Resource)) :
    (nonDesertIndicesOf res).length
      = res.countP fun r => decide (r ≠ some Resource.desert) := by
  unfold nonDesertIndicesOf
  rw [List.length_map, ← List.countP_eq_length_filter, List.countP_map]
  have h1 : res.countP (fun r => decide (r ≠ some Resource.desert))
      = res.enum.countP ((fun r => decide (r ≠ some Resource.desert)) ∘ Prod.snd) := by
    rw [← List.countP_map, List.enum_map_snd]
  rw [h1]
  apply List.countP_congr
  intro p _
  simp only [Function.comp]
  by_cases h : p.2 = some Resource.desert <;> simp [h]

/-- C6: every generated layout covers the board exactly: all 30 slots are
assigned (no slot is left `undefined`), the multiset of assigned resources
equals the configured 30-entry multiset, the number tokens are a
permutation of the 28 configured tokens (each used exactly once, mapped in
order onto the non-desert slots), and the non-desert slot count equals the
token count. -/
theorem generateLayout_coverage (rng : Int → ℚ)
    (_hr : ∀ s : Int, 0 ≤ rng s ∧ rng s < 1) (seedInput fallbackName : List Nat) :
    (generateLayout rng seedInput fallbackName).shuffledResources.length = 30 ∧
      none ∉ (generateLayout rng seedInput fallbackName).shuffledResources ∧
      ((generateLayout rng seedInput fallbackName).shuffledResources.filterMap id).Perm
        resources ∧
      (generateLayout rng seedInput fallbackName).shuffledNumbers.Perm numbers ∧
      (generateLayout rng seedInput fallbackName).nonDesertIndices.length = numbers.length := by
  obtain ⟨hlen, -, -, hfm, hnone, hcp⟩ := shuffleResourcesStep_props rng
    (hashString (if seedInput = [] then fallbackName else seedInput))
  refine ⟨?_, ?_, ?_, ?_, ?_⟩
  · rw [generateLayout_resources]
    exact hlen
  · rw [generateLayout_resources]
    exact hnone
  · rw [generateLayout_resources]
    exact hfm
  · rw [generateLayout_numbers]
    exact numbersLoop_perm _ _ _ _ _ _ (shuffleArray_perm _ _ _)
  · rw [generateLayout_ndi, nonDesertIndicesOf_length, generateLayout_resources, hcp]
    rfl

/-- C6 witness. -/
theorem generateLayout_coverage_witness :
    (∀ s : Int, 0 ≤ rngZero s ∧ rngZero s < 1) ∧
      ((generateLayout rngZero [65] [66]).shuffledResources.length = 30 ∧
        none ∉ (generateLayout rngZero [65] [66]).shuffledResources ∧
        ((generateLayout rngZero [65] [66]).shuffledResources.filterMap id).Perm resources ∧
        (generateLayout rngZero [65] [66]).shuffledNumbers.Perm numbers ∧
        (generateLayout rngZero [65] [66]).nonDesertIndices.length = numbers.length) :=
  ⟨rngZero_contract, generateLayout_coverage rngZero rngZero_contract [65] [66]⟩

/-- C1: determinism.  The embedding of the generator is a pure function, so
two calls with the same seed text are definitionally equal; the substantive
statement is that for a nonempty seed text the whole output — resource
assignment, number assignment, CIBI score and pip totals — depends only on
`hashString` of that text: the fallback friendly name (the only
non-deterministic input of `shuffleBoard`) has no influence. -/
theorem generateLayout_deterministic (rng : Int → ℚ) (s fb1 fb2 : List Nat) (hs : s ≠ []) :
    generateLayout rng s fb1 = generateLayout rng s fb2 := by
  unfold generateLayout
  simp only [if_neg hs]

/-- C1 witness. -/
theorem generateLayout_deterministic_witness :
    ([65] : List Nat) ≠ [] ∧
      generateLayout rngZero [65] [66] = generateLayout rngZero [65] [67] :=
  ⟨by decide, generateLayout_deterministic rngZero [65] [66] [67] (by decide)⟩

lemma generateLayout_friendly (rng : Int → ℚ) (seedInput fallbackName : List Nat) :
    (generateLayout rng seedInput fallbackName).friendlySeedName
      = if seedInput = [] then fallbackName else seedInput := by
  rw [generateLayout]

/-- C9 counterexample: the seed text `" "` (a single space, character code
32) consists only of whitespace, but the generator does not fall back to
the friendly name: JavaScript's `if (seedInput)` is false only for the
empty string, so `" "` is kept (and hashed) verbatim. -/
theorem seedText_whitespace_counterexample :
    (generateLayout rngZero [32] [65]).friendlySeedName = [32] ∧
      ([32] : List Nat) ≠ [65] := by
  constructor
  · rw [generateLayout_friendly]
    decide
  · decide

/-- C9 as amended: only the *empty* seed text is treated as "no seed
supplied" and replaced by the generated friendly name (which is then hashed
into the numeric seed); every nonempty seed text — including whitespace-only
text — is used and hashed verbatim.  No error is raised in either case (the
generator is a total function). -/
theorem seedText_fallback_amended (rng : Int → ℚ) (seedInput fallbackName : List Nat) :
    (seedInput = [] →
        (generateLayout rng seedInput fallbackName).friendlySeedName = fallbackName) ∧
      (seedInput ≠ [] →
        (generateLayout rng seedInput fallbackName).friendlySeedName = seedInput) := by
  constructor <;> intro h <;> rw [generateLayout_friendly]
  · rw [if_pos h]
  · rw [if_neg h]

/-- C9 witness for the amended claim. -/
theorem seedText_fallback_amended_witness :
    (generateLayout rngZero [] [65]).friendlySeedName = [65] ∧
      (generateLayout rngZero [32] [65]).friendlySeedName = [32] :=
  ⟨(seedText_fallback_amended rngZero [] [65]).1 rfl,
   (seedText_fallback_amended rngZero [32] [65]).2 (by decide)⟩

end Catan
